import Mathlib

/-!
Verification of the DOM-reconciliation core of the `commenter` browser
extension (src/content.js, src/background.js) against its natural-language
specification.

The JavaScript is embedded shallowly:

* A feed post (one DOM subtree) is a `Post`: its identifying attributes
  (`data-urn`, `id`, class list), the descendant elements relevant to the
  classifiers, and the trigger controls currently injected into it.
* A descendant element is an `Elem`: the set of CSS selectors it matches
  (kept as opaque strings, spelled exactly as in the source) plus its
  `textContent`.  `querySelectorAll` is then a filter over the descendant
  list in document order.
* Injected trigger controls are modelled as separate `Button` entities
  rather than descendant elements: the injected markup (a button plus a
  wrapper tagged only with the extension's own classes, text
  "✨ Generate Comment", 18 characters) matches none of the content, media
  or comment selectors and stays below every length threshold the
  classifiers use, so it can never influence classification or identity.
* JavaScript string primitives (`trim`, `length`, `slice`, `includes`,
  `replace(/\s+/g,'-')`) are re-implemented over `List Char`.
-/

namespace Commenter

/-! ### JavaScript string primitives -/

/-- Whitespace as recognised by `String.prototype.trim`. -/
def isWs (c : Char) : Bool :=
  c = ' ' || c = '\t' || c = '\n' || c = '\r'

/-- JS `s.trim()`: strip leading and trailing whitespace. -/
def trimList (l : List Char) : List Char :=
  ((l.dropWhile isWs).reverse.dropWhile isWs).reverse

/-- JS `s.trim()` on strings. -/
def jsTrim (s : String) : String :=
  ⟨trimList s.data⟩

/-- JS `s.length` (character count). -/
def strLen (s : String) : Nat :=
  s.data.length

/-- JS `s.slice(0, n)` / `s.substring(0, n)`. -/
def strTake (s : String) (n : Nat) : String :=
  ⟨s.data.take n⟩

/-- Does `l` start with `sub`? (helper for `includes`). -/
def startsList (sub l : List Char) : Bool :=
  match sub, l with
  | [], _ => true
  | _ :: _, [] => false
  | a :: as, b :: bs => a = b && startsList as bs

/-- Does `l` contain `sub` as a contiguous run? (helper for `includes`). -/
def hasSubList (sub : List Char) : List Char → Bool
  | [] => startsList sub []
  | b :: bs => startsList sub (b :: bs) || hasSubList sub bs

/-- JS `s.includes(sub)`. -/
def strIncludes (s sub : String) : Bool :=
  hasSubList sub.data s.data

/-- JS `text.replace` of `/\s+/g` by a dash: each maximal whitespace run becomes one `-`.
The flag records whether the previous character was whitespace. -/
def squashWsAux : Bool → List Char → List Char
  | _, [] => []
  | prevWs, c :: rest =>
    if isWs c then
      if prevWs then squashWsAux true rest
      else '-' :: squashWsAux true rest
    else c :: squashWsAux false rest

/-- The whitespace-squashing replace on strings. -/
def squashWs (s : String) : String :=
  ⟨squashWsAux false s.data⟩

/-! ### DOM model -/

/-- A descendant element of a post: the selectors it matches (opaque keys,
spelled as in the source) and its `textContent`. -/
structure Elem where
  selectors : List String
  text : String
deriving DecidableEq

/-- An injected trigger control (`.linkedin-comment-generator-button`).
`wrapped` records whether it sits inside a wrapper element carrying
`.linkedin-comment-generator-container` / `.linkedin-comment-generator-fallback`;
removing such a control removes the wrapper with it (content.js:1684-1689). -/
structure Button where
  wrapped : Bool
deriving DecidableEq

/-- One feed post. `ref` is the element reference (JavaScript object
identity). `classes` is the element's class list (used both by the
post-level selectors of the scanner and by `classList.toString()`).
`buttons` are the trigger controls currently inside the post's subtree,
in document order. -/
structure Post where
  ref : Nat
  dataUrn : Option String
  elemId : Option String
  classes : List String
  descendants : List Elem
  buttons : List Button
deriving DecidableEq

/-- The document: its posts in document order. -/
structure Dom where
  posts : List Post
deriving DecidableEq

/-- Model of `post.querySelectorAll(sel)`: descendants matching `sel`, in document order. -/
def querySelectorAll (post : Post) (sel : String) : List Elem :=
  post.descendants.filter (fun e => decide (sel ∈ e.selectors))

/-! ### Post Classifier (content.js:544-677) -/

/-- Minimum characters to consider as meaningful content (content.js:547). -/
def minContentLength : Nat := 20

/-- Content-region selectors of `hasContent` (content.js:550-562). -/
def hasContentSelectors : List String :=
  [ ".feed-shared-update-v2__description-wrapper"
  , ".feed-shared-text__text-view"
  , ".update-components-text"
  , ".feed-shared-inline-show-more-text"
  , ".feed-shared-text-view"
  , ".feed-shared-actor__description"
  , ".update-components-actor__description"
  , ".update-components-article__title"
  , ".update-components-article__description"
  , ".feed-shared-external-video__description"
  , ".feed-shared-update-v2__commentary" ]

/-- Media-presence selectors of `hasContent` (content.js:575-582). -/
def mediaSelectors : List String :=
  [ "img.feed-shared-image"
  , ".feed-shared-image__container"
  , ".feed-shared-linkedin-video"
  , ".feed-shared-external-video"
  , ".feed-shared-mini-article"
  , ".feed-shared-article__preview-image" ]

/-- Source `hasContent(post)` (content.js:545-591): some content-region element has
trimmed text of length at least 20, or some media selector matches. -/
def hasContent (post : Post) : Bool :=
  hasContentSelectors.any (fun sel =>
    (querySelectorAll post sel).any (fun el =>
      decide (minContentLength ≤ strLen (jsTrim el.text))))
  || mediaSelectors.any (fun sel => !(querySelectorAll post sel).isEmpty)

/-- Comment-button selectors of `isCommentable` (content.js:648-654). -/
def commentButtonSelectors : List String :=
  [ "button[aria-label*=\"comment\" i]"
  , "button.comment-button"
  , "[aria-label*=\"Comment\" i][role=\"button\"]"
  , ".comment-button"
  , "[data-control-name=\"comment\"]" ]

/-- Comment-section selectors of `isCommentable` (content.js:663-667). -/
def commentSectionSelectors : List String :=
  [ ".comments-comment-box"
  , ".comments-comment-texteditor"
  , ".feed-shared-comment-box" ]

/-- Source `isCommentable(post)` (content.js:646-677). -/
def isCommentable (post : Post) : Bool :=
  commentButtonSelectors.any (fun sel => !(querySelectorAll post sel).isEmpty)
  || commentSectionSelectors.any (fun sel => !(querySelectorAll post sel).isEmpty)

/-! ### Content Extractor (content.js:594-643) -/

/-- Content selectors of `extractPostContent` (content.js:598-608); note the
list differs from `hasContentSelectors`. -/
def extractContentSelectors : List String :=
  [ ".feed-shared-update-v2__description-wrapper"
  , ".feed-shared-text__text-view"
  , ".update-components-text"
  , ".feed-shared-inline-show-more-text"
  , ".feed-shared-text-view"
  , ".feed-shared-update-v2__commentary"
  , ".update-components-article__title"
  , ".update-components-article__description"
  , ".feed-shared-external-video__description" ]

/-- First element whose trimmed text exceeds `minLen` characters, in list
order (the inner loops of content.js:611-620 and 627-635). -/
def firstLongTextIn (minLen : Nat) : List Elem → Option String
  | [] => none
  | el :: rest =>
    let t := jsTrim el.text
    if minLen < strLen t then some t else firstLongTextIn minLen rest

/-- The selector-priority loop of `extractPostContent` (content.js:611-620):
first selector whose matches contain text longer than 10 characters wins. -/
def extractBySelectors (post : Post) : List String → Option String
  | [] => none
  | sel :: rest =>
    match firstLongTextIn 10 (querySelectorAll post sel) with
    | some t => some t
    | none => extractBySelectors post rest

/-- Model of the generic fallback sweep `post.querySelectorAll('span, p, div')`
(content.js:624). -/
def genericSweep (post : Post) : List Elem :=
  post.descendants.filter (fun e =>
    decide ("span" ∈ e.selectors) || decide ("p" ∈ e.selectors)
      || decide ("div" ∈ e.selectors))

/-- Source `extractPostContent(post)` (content.js:594-643). -/
def extractPostContent (post : Post) : String :=
  match extractBySelectors post extractContentSelectors with
  | some t => t
  | none =>
    match firstLongTextIn 30 (genericSweep post) with
    | some t => t
    | none => "LinkedIn post"

/-! ### Post Identity (content.js:524-542) -/

/-- Matches `.feed-shared-update-v2, .occludable-update` (content.js:540). -/
def isFeedElement (q : Post) : Bool :=
  decide ("feed-shared-update-v2" ∈ q.classes)
    || decide ("occludable-update" ∈ q.classes)

/-- JS `Array.prototype.indexOf` by element reference. -/
def idxOfRef (r : Nat) : List Post → Option Nat
  | [] => none
  | p :: rest =>
    if p.ref == r then some 0 else (idxOfRef r rest).map (fun i => i + 1)

/-- Index of the post among `document.querySelectorAll('.feed-shared-update-v2,
.occludable-update')` (content.js:540), `-1` when absent (`indexOf`). -/
def feedPostIndex (dom : Dom) (p : Post) : Int :=
  match idxOfRef p.ref (dom.posts.filter isFeedElement) with
  | some i => (i : Int)
  | none => -1

/-- JS `post.classList.toString()`. -/
def classListToString (p : Post) : String :=
  String.intercalate " " p.classes

/-- Source `getPostId(post)` (content.js:524-542). -/
def getPostId (dom : Dom) (p : Post) : String :=
  match p.dataUrn with
  | some urn => "urn-" ++ urn
  | none =>
    match p.elemId with
    | some i => "id-" ++ i
    | none =>
      let uniqueText := squashWs (strTake (extractPostContent p) 40)
      if uniqueText ≠ "" && uniqueText ≠ "LinkedIn-post" then
        "content-" ++ uniqueText
      else
        "post-" ++ classListToString p ++ "-" ++ toString (feedPostIndex dom p)

/-! ### Duplicate Reconciler (content.js:1657-1722) -/

/-- Model of `button.closest('.feed-shared-update-v2, .occludable-update, [data-urn],
.feed-shared-update, .artdeco-card')` (content.js:1667/1697): does the post
match the reconciler's post-anchor selector list?  Buttons whose post does
not are never grouped and never removed. -/
def cleanupAnchored (p : Post) : Bool :=
  p.dataUrn.isSome
  || ["feed-shared-update-v2", "occludable-update", "feed-shared-update",
      "artdeco-card"].any (fun s => decide (s ∈ p.classes))

/-- Eligibility shorthand: commentable and with content. -/
def eligiblePost (p : Post) : Bool :=
  isCommentable p && hasContent p

/-- Phase 1 of `cleanupDuplicateButtons` (content.js:1663-1692): group all
trigger controls by the Post Identity of their anchor post (identities are
computed against the pre-pass document `dom`, since grouping happens before
any removal), keep the first control of each group in document order, and
remove the rest (with their wrappers).  `seen` is the set of identities whose
group keeper has already been passed. -/
def phase1Go (dom : Dom) (seen : List String) : List Post → List Post
  | [] => []
  | p :: rest =>
    if cleanupAnchored p && !p.buttons.isEmpty then
      let k := getPostId dom p
      if k ∈ seen then
        { p with buttons := [] } :: phase1Go dom seen rest
      else
        { p with buttons := p.buttons.take 1 } :: phase1Go dom (k :: seen) rest
    else
      p :: phase1Go dom seen rest

/-- Phase 2 of `cleanupDuplicateButtons` (content.js:1694-1718): remove every
surviving control whose anchor post is no longer commentable or has no
meaningful content. -/
def phase2 (p : Post) : Post :=
  if p.buttons.isEmpty then p
  else if !cleanupAnchored p then p
  else if !isCommentable p then { p with buttons := [] }
  else if !hasContent p then { p with buttons := [] }
  else p

/-- Source `cleanupDuplicateButtons()` (content.js:1657-1722). -/
def cleanupDuplicateButtons (dom : Dom) : Dom :=
  ⟨(phase1Go dom [] dom.posts).map phase2⟩

/-! ### Feed Scanner and Button Injector (content.js:1375-1654) -/

/-- The post selectors of the scanner (content.js:1381-1394), as class names
(each source selector is a single class selector). -/
def postSelectors : List String :=
  [ "feed-shared-update-v2"
  , "occludable-update"
  , "feed-shared-article"
  , "feed-shared-update"
  , "update-components-actor"
  , "update-components-article"
  , "update-components-image"
  , "feed-shared-external-video"
  , "feed-shared-text" ]

/-- Reference deduplication `[...new Set(allPosts)]` (content.js:1408):
keep the first occurrence of each element reference. -/
def dedupByRef (seen : List Nat) : List Post → List Post
  | [] => []
  | p :: rest =>
    if p.ref ∈ seen then dedupByRef seen rest
    else p :: dedupByRef (p.ref :: seen) rest

/-- The scan of `addButtonsToPosts` (content.js:1396-1409): union the matches
of each post selector in order, then deduplicate element references. -/
def scanPosts (dom : Dom) : List Post :=
  dedupByRef []
    (postSelectors.flatMap (fun sel =>
      dom.posts.filter (fun p => decide (sel ∈ p.classes))))

/-- Element references of the scanned posts; the injector loop walks these
and re-reads each element's current state (live references). -/
def scanRefs (dom : Dom) : List Nat :=
  (scanPosts dom).map (fun p => p.ref)

/-- Look an element up by reference (`allPosts` holds live references). -/
def findPost (dom : Dom) (r : Nat) : Option Post :=
  dom.posts.find? (fun p => p.ref == r)

/-- Model of `processedPostIds.add(id)` (a JS `Set`). -/
def addId (l : List String) (x : String) : List String :=
  if x ∈ l then l else x :: l

/-- The control every placement tier injects: all three tiers (next to the
comment button, appended to the action bar, bottom-of-post fallback) wrap the
button in a container carrying the extension's class
(content.js:1486-1535, 1541-1589, 1599-1647). -/
def injectedButton : Button :=
  ⟨true⟩

/-- Append an injected control to the post with reference `r`. -/
def addButtonTo (dom : Dom) (r : Nat) : Dom :=
  ⟨dom.posts.map (fun p =>
    if p.ref == r then { p with buttons := p.buttons ++ [injectedButton] }
    else p)⟩

/-- State threaded through the injector's `forEach` loop: the live document,
the process-wide `processedPostIds` set (content.js:520), and the
`buttonsAdded` counter (content.js:1411). -/
structure InjectState where
  dom : Dom
  processed : List String
  buttonsAdded : Nat
deriving DecidableEq

/-- The body of the `allPosts.forEach` loop of `addButtonsToPosts`
(content.js:1414-1648): skip if already processed; skip (without recording)
if not commentable; skip (without recording) if without content; record
without injecting if a control is already physically present in the subtree;
otherwise place exactly one wrapped control (whichever placement tier fires,
content.js:1464-1647) and record the identity. -/
def processOnePost (st : InjectState) (r : Nat) : InjectState :=
  match findPost st.dom r with
  | none => st
  | some post =>
    let postId := getPostId st.dom post
    if postId ∈ st.processed then st
    else if isCommentable post = false then st
    else if hasContent post = false then st
    else if post.buttons.isEmpty = false then
      { st with processed := addId st.processed postId }
    else
      { dom := addButtonTo st.dom r
      , processed := addId st.processed postId
      , buttonsAdded := st.buttonsAdded + 1 }

/-- Source `addButtonsToPosts()` (content.js:1375-1654): reconcile duplicates first
(content.js:1378), scan (content.js:1396-1409), then run the injector loop. -/
def addButtonsToPosts (dom : Dom) (processed : List String) : InjectState :=
  let dom1 := cleanupDuplicateButtons dom
  (scanRefs dom1).foldl processOnePost ⟨dom1, processed, 0⟩

/-! ### Shape preservation

Injection and reconciliation only ever change the `buttons` field of posts.
`SameShape` relates two snapshots of the same element whose identifying
attributes, class list and classifier-relevant descendants agree; every
classifier and the identity function factor through it. -/

/-- Two post snapshots agreeing on everything except (possibly) buttons. -/
structure SameShape (p q : Post) : Prop where
  ref : p.ref = q.ref
  urn : p.dataUrn = q.dataUrn
  eid : p.elemId = q.elemId
  cls : p.classes = q.classes
  des : p.descendants = q.descendants

theorem sameShape_refl (p : Post) : SameShape p p :=
  ⟨Eq.refl _, Eq.refl _, Eq.refl _, Eq.refl _, Eq.refl _⟩

theorem sameShape_symm (h : SameShape p q) : SameShape q p :=
  ⟨h.ref.symm, h.urn.symm, h.eid.symm, h.cls.symm, h.des.symm⟩

theorem sameShape_trans (h : SameShape p q) (h' : SameShape q s) : SameShape p s :=
  ⟨h.ref.trans h'.ref, h.urn.trans h'.urn, h.eid.trans h'.eid,
   h.cls.trans h'.cls, h.des.trans h'.des⟩

/-- Two document snapshots with pointwise `SameShape` posts. -/
def DomShape (d d' : Dom) : Prop :=
  List.Forall₂ SameShape d.posts d'.posts

theorem forall₂_shape_refl (l : List Post) : List.Forall₂ SameShape l l := by
  induction l with
  | nil => exact List.Forall₂.nil
  | cons p rest ih => exact List.Forall₂.cons (sameShape_refl p) ih

theorem domShape_refl (d : Dom) : DomShape d d :=
  forall₂_shape_refl d.posts

theorem forall₂_shape_symm {l l' : List Post}
    (h : List.Forall₂ SameShape l l') : List.Forall₂ SameShape l' l := by
  induction h with
  | nil => exact List.Forall₂.nil
  | cons hab _ ih => exact List.Forall₂.cons (sameShape_symm hab) ih

theorem domShape_symm (h : DomShape d d') : DomShape d' d :=
  forall₂_shape_symm h

theorem forall₂_shape_trans {l l' l'' : List Post}
    (h : List.Forall₂ SameShape l l') (h' : List.Forall₂ SameShape l' l'') :
    List.Forall₂ SameShape l l'' := by
  induction h generalizing l'' with
  | nil => cases h'; exact List.Forall₂.nil
  | cons hab _ ih =>
    cases h' with
    | cons hbc htl => exact List.Forall₂.cons (sameShape_trans hab hbc) (ih htl)

theorem domShape_trans (h : DomShape d d') (h' : DomShape d' d'') : DomShape d d'' :=
  forall₂_shape_trans h h'

/-! Congruence of the classifiers and of Post Identity under `SameShape`. -/

theorem querySelectorAll_congr (hp : SameShape p q) (sel : String) :
    querySelectorAll p sel = querySelectorAll q sel := by
  simp [querySelectorAll, hp.des]

theorem hasContent_congr (hp : SameShape p q) : hasContent p = hasContent q := by
  simp [hasContent, querySelectorAll_congr hp]

theorem isCommentable_congr (hp : SameShape p q) :
    isCommentable p = isCommentable q := by
  simp [isCommentable, querySelectorAll_congr hp]

theorem eligiblePost_congr (hp : SameShape p q) :
    eligiblePost p = eligiblePost q := by
  simp [eligiblePost, isCommentable_congr hp, hasContent_congr hp]

theorem extractBySelectors_congr (hp : SameShape p q) :
    ∀ sels, extractBySelectors p sels = extractBySelectors q sels
  | [] => Eq.refl _
  | sel :: rest => by
    simp only [extractBySelectors, querySelectorAll_congr hp,
      extractBySelectors_congr hp rest]

theorem genericSweep_congr (hp : SameShape p q) :
    genericSweep p = genericSweep q := by
  simp [genericSweep, hp.des]

theorem extractPostContent_congr (hp : SameShape p q) :
    extractPostContent p = extractPostContent q := by
  simp only [extractPostContent, extractBySelectors_congr hp,
    genericSweep_congr hp]

theorem cleanupAnchored_congr (hp : SameShape p q) :
    cleanupAnchored p = cleanupAnchored q := by
  simp [cleanupAnchored, hp.urn, hp.cls]

theorem classListToString_congr (hp : SameShape p q) :
    classListToString p = classListToString q := by
  simp [classListToString, hp.cls]

theorem forall₂_filter_shape {l l' : List Post} {f : Post → Bool}
    (hf : ∀ a b, SameShape a b → f a = f b)
    (h : List.Forall₂ SameShape l l') :
    List.Forall₂ SameShape (l.filter f) (l'.filter f) := by
  induction h with
  | nil => exact List.Forall₂.nil
  | @cons a b as bs hab _ ih =>
    rw [List.filter_cons, List.filter_cons, ← hf a b hab]
    by_cases hfa : f a = true
    · simp only [hfa, if_true]
      exact List.Forall₂.cons hab ih
    · simp only [Bool.not_eq_true] at hfa
      simp only [hfa, Bool.false_eq_true, if_false]
      exact ih

theorem idxOfRef_congr {l l' : List Post} (r : Nat)
    (h : List.Forall₂ SameShape l l') : idxOfRef r l = idxOfRef r l' := by
  induction h with
  | nil => rfl
  | @cons a b as bs hab _ ih =>
    simp only [idxOfRef, hab.ref, ih]

theorem feedPostIndex_congr (h : DomShape d d') (hr : p.ref = q.ref) :
    feedPostIndex d p = feedPostIndex d' q := by
  have hfilter : List.Forall₂ SameShape (d.posts.filter isFeedElement)
      (d'.posts.filter isFeedElement) :=
    forall₂_filter_shape (fun a b hab => by simp [isFeedElement, hab.cls]) h
  simp only [feedPostIndex, hr, idxOfRef_congr q.ref hfilter]

theorem getPostId_congr (h : DomShape d d') (hp : SameShape p q) :
    getPostId d p = getPostId d' q := by
  cases hu : q.dataUrn with
  | some urn => simp [getPostId, hp.urn.trans hu, hu]
  | none =>
    cases he : q.elemId with
    | some i => simp [getPostId, hp.urn.trans hu, hu, hp.eid.trans he, he]
    | none =>
      simp only [getPostId, hp.urn.trans hu, hu, hp.eid.trans he, he,
        extractPostContent_congr hp, classListToString_congr hp,
        feedPostIndex_congr h hp.ref]

theorem find?_ref_none_congr {l l' : List Post} (r : Nat)
    (h : List.Forall₂ SameShape l l')
    (hn : l.find? (fun p => p.ref == r) = none) :
    l'.find? (fun p => p.ref == r) = none := by
  induction h with
  | nil => rfl
  | @cons a b as bs hab _ ih =>
    have hb : (b.ref == r) = (a.ref == r) := by rw [hab.ref]
    cases ha : (a.ref == r) with
    | true => simp only [List.find?, ha] at hn; exact absurd hn (by simp)
    | false =>
      simp only [List.find?, ha] at hn
      simp only [List.find?, hb, ha]
      exact ih hn

theorem find?_ref_some_congr {l l' : List Post} {p : Post} (r : Nat)
    (h : List.Forall₂ SameShape l l')
    (hs : l.find? (fun q => q.ref == r) = some p) :
    ∃ q, l'.find? (fun q' => q'.ref == r) = some q ∧ SameShape p q := by
  induction h with
  | nil => exact absurd hs (by simp)
  | @cons a b as bs hab _ ih =>
    have hb : (b.ref == r) = (a.ref == r) := by rw [hab.ref]
    cases ha : (a.ref == r) with
    | true =>
      simp only [List.find?, ha] at hs
      refine ⟨b, ?_, Option.some.inj hs ▸ hab⟩
      simp only [List.find?, hb, ha]
    | false =>
      simp only [List.find?, ha] at hs
      obtain ⟨q, hq, hpq⟩ := ih hs
      exact ⟨q, by simp only [List.find?, hb, ha]; exact hq, hpq⟩

theorem findPost_none_congr (h : DomShape d d') (r : Nat)
    (hn : findPost d r = none) : findPost d' r = none :=
  find?_ref_none_congr r h hn

theorem findPost_some_congr (h : DomShape d d') (r : Nat)
    (hs : findPost d r = some p) :
    ∃ q, findPost d' r = some q ∧ SameShape p q :=
  find?_ref_some_congr r h hs

/-! Every operation of the pipeline only rewrites `buttons`. -/

theorem phase1Go_shape (dom : Dom) :
    ∀ (l : List Post) (seen : List String),
      List.Forall₂ SameShape (phase1Go dom seen l) l
  | [], _ => List.Forall₂.nil
  | p :: rest, seen => by
    simp only [phase1Go]
    split
    · split
      · exact List.Forall₂.cons ⟨rfl, rfl, rfl, rfl, rfl⟩ (phase1Go_shape dom rest seen)
      · exact List.Forall₂.cons ⟨rfl, rfl, rfl, rfl, rfl⟩
          (phase1Go_shape dom rest (getPostId dom p :: seen))
    · exact List.Forall₂.cons (sameShape_refl p) (phase1Go_shape dom rest seen)

theorem phase2_shape (p : Post) : SameShape (phase2 p) p := by
  unfold phase2
  split
  · exact sameShape_refl p
  · split
    · exact sameShape_refl p
    · split
      · exact ⟨rfl, rfl, rfl, rfl, rfl⟩
      · split
        · exact ⟨rfl, rfl, rfl, rfl, rfl⟩
        · exact sameShape_refl p

theorem map_phase2_shape (l : List Post) :
    List.Forall₂ SameShape (l.map phase2) l := by
  induction l with
  | nil => exact List.Forall₂.nil
  | cons p rest ih => exact List.Forall₂.cons (phase2_shape p) ih

theorem cleanup_shape (dom : Dom) :
    DomShape (cleanupDuplicateButtons dom) dom :=
  forall₂_shape_trans (map_phase2_shape (phase1Go dom [] dom.posts))
    (phase1Go_shape dom dom.posts [])

theorem addButtonTo_shape (dom : Dom) (r : Nat) :
    DomShape (addButtonTo dom r) dom := by
  show List.Forall₂ SameShape (dom.posts.map _) dom.posts
  induction dom.posts with
  | nil => exact List.Forall₂.nil
  | cons p rest ih =>
    refine List.Forall₂.cons ?_ ih
    by_cases hp : (p.ref == r) = true
    · simp only [hp, if_true]; exact ⟨rfl, rfl, rfl, rfl, rfl⟩
    · simp only [Bool.not_eq_true] at hp
      simp only [hp, Bool.false_eq_true, if_false]
      exact sameShape_refl p

theorem processOnePost_shape (st : InjectState) (r : Nat) :
    DomShape (processOnePost st r).dom st.dom := by
  simp only [processOnePost]
  split
  · exact domShape_refl st.dom
  · split
    · exact domShape_refl st.dom
    · split
      · exact domShape_refl st.dom
      · split
        · exact domShape_refl st.dom
        · split
          · exact domShape_refl st.dom
          · exact addButtonTo_shape st.dom r

theorem foldl_process_shape (refs : List Nat) :
    ∀ st : InjectState, DomShape ((refs.foldl processOnePost st).dom) st.dom := by
  induction refs with
  | nil => intro st; exact domShape_refl st.dom
  | cons r rest ih =>
    intro st
    exact domShape_trans (ih (processOnePost st r)) (processOnePost_shape st r)

/-! The scanner's reference list is also shape-determined. -/

theorem forall₂_shape_append {l₁ l₂ l₁' l₂' : List Post}
    (h₁ : List.Forall₂ SameShape l₁ l₁') (h₂ : List.Forall₂ SameShape l₂ l₂') :
    List.Forall₂ SameShape (l₁ ++ l₂) (l₁' ++ l₂') := by
  induction h₁ with
  | nil => exact h₂
  | cons hab _ ih => exact List.Forall₂.cons hab ih

theorem scanUnion_shape (h : DomShape d d') :
    ∀ sels : List String,
      List.Forall₂ SameShape
        (sels.flatMap (fun sel => d.posts.filter (fun p => decide (sel ∈ p.classes))))
        (sels.flatMap (fun sel => d'.posts.filter (fun p => decide (sel ∈ p.classes))))
  | [] => List.Forall₂.nil
  | sel :: rest => by
    simp only [List.flatMap_cons]
    exact forall₂_shape_append
      (forall₂_filter_shape (fun a b hab => by simp [hab.cls]) h)
      (scanUnion_shape h rest)

theorem dedupByRef_refs_congr {l l' : List Post}
    (h : List.Forall₂ SameShape l l') :
    ∀ seen, (dedupByRef seen l).map (fun p => p.ref)
      = (dedupByRef seen l').map (fun p => p.ref) := by
  induction h with
  | nil => intro seen; rfl
  | @cons a b as bs hab _ ih =>
    intro seen
    simp only [dedupByRef, hab.ref]
    by_cases hm : b.ref ∈ seen
    · simp only [hm, if_true]
      exact ih seen
    · simp only [hm, if_false, List.map_cons, hab.ref]
      rw [ih (b.ref :: seen)]

theorem scanRefs_congr (h : DomShape d d') : scanRefs d = scanRefs d' :=
  dedupByRef_refs_congr (scanUnion_shape h postSelectors) []

/-! The `processedPostIds` set only grows. -/

theorem mem_addId_self (l : List String) (x : String) : x ∈ addId l x := by
  unfold addId
  by_cases hm : x ∈ l
  · simp [hm]
  · simp [hm]

theorem mem_addId_of_mem {l : List String} {x y : String} (h : y ∈ l) :
    y ∈ addId l x := by
  unfold addId
  by_cases hm : x ∈ l
  · simp [hm, h]
  · simp [hm]
    exact Or.inr h

theorem mem_addId_cases {l : List String} {x y : String}
    (h : y ∈ addId l x) : y = x ∨ y ∈ l := by
  unfold addId at h
  by_cases hm : x ∈ l
  · simp only [hm, if_true] at h
    exact Or.inr h
  · simp only [hm, if_false] at h
    cases h with
    | head => exact Or.inl rfl
    | tail _ ht => exact Or.inr ht

theorem processOnePost_processed_mono {st : InjectState} {r : Nat} {x : String}
    (h : x ∈ st.processed) : x ∈ (processOnePost st r).processed := by
  simp only [processOnePost]
  split
  · exact h
  · split
    · exact h
    · split
      · exact h
      · split
        · exact h
        · split
          · exact mem_addId_of_mem h
          · exact mem_addId_of_mem h

theorem foldl_process_processed_mono (refs : List Nat) :
    ∀ (st : InjectState) (x : String), x ∈ st.processed →
      x ∈ (refs.foldl processOnePost st).processed := by
  induction refs with
  | nil => intro st x h; exact h
  | cons r rest ih =>
    intro st x h
    exact ih (processOnePost st r) x (processOnePost_processed_mono h)

/-! ### The injector loop: invariants -/

theorem find_relate_of_shape (h : DomShape d d') {r : Nat} {q p : Post}
    (hq : findPost d r = some q) (hp : findPost d' r = some p) :
    SameShape q p := by
  obtain ⟨q', hq', hqq'⟩ := findPost_some_congr h r hq
  rw [hp] at hq'
  exact (Option.some.inj hq') ▸ hqq'

/-- Processing an eligible element records its identity. -/
theorem processOnePost_establishes {st : InjectState} {r : Nat} {q : Post}
    (hq : findPost st.dom r = some q) (helig : eligiblePost q = true) :
    getPostId st.dom q ∈ (processOnePost st r).processed := by
  have hch : isCommentable q = true ∧ hasContent q = true := by
    simp only [eligiblePost, Bool.and_eq_true] at helig
    exact helig
  obtain ⟨hc, hh⟩ := hch
  simp only [processOnePost, hq]
  by_cases h1 : getPostId st.dom q ∈ st.processed
  · simp only [h1, if_true]
  · by_cases h4 : q.buttons.isEmpty = false
    · simp [h1, hc, hh, h4, mem_addId_self]
    · simp [h1, hc, hh, h4, mem_addId_self]

/-- After one pass of the injector loop, every scanned element that is
eligible (in the final document) has its identity in the Processed-Set. -/
theorem foldl_process_populates (refs : List Nat) :
    ∀ (st : InjectState) (r : Nat), r ∈ refs →
      ∀ p, findPost (refs.foldl processOnePost st).dom r = some p →
        eligiblePost p = true →
        getPostId (refs.foldl processOnePost st).dom p
          ∈ (refs.foldl processOnePost st).processed := by
  induction refs with
  | nil => intro st r hr; exact absurd hr (List.not_mem_nil r)
  | cons r₀ rest ih =>
    intro st r hr p hfind helig
    simp only [List.foldl_cons] at hfind ⊢
    rcases List.mem_cons.mp hr with hr0 | hrrest
    · subst hr0
      cases hq : findPost st.dom r with
      | none =>
        have hchain : DomShape st.dom
            (rest.foldl processOnePost (processOnePost st r)).dom :=
          domShape_symm (domShape_trans
            (foldl_process_shape rest (processOnePost st r))
            (processOnePost_shape st r))
        rw [findPost_none_congr hchain r hq] at hfind
        exact absurd hfind (by simp)
      | some q =>
        have hchain : DomShape
            (rest.foldl processOnePost (processOnePost st r)).dom st.dom :=
          domShape_trans (foldl_process_shape rest (processOnePost st r))
            (processOnePost_shape st r)
        have hqp : SameShape q p :=
          find_relate_of_shape (domShape_symm hchain) hq hfind
        have heligq : eligiblePost q = true := by
          rw [eligiblePost_congr hqp]; exact helig
        have hmem : getPostId st.dom q ∈ (processOnePost st r).processed :=
          processOnePost_establishes hq heligq
        have hmem2 : getPostId st.dom q
            ∈ (rest.foldl processOnePost (processOnePost st r)).processed :=
          foldl_process_processed_mono rest (processOnePost st r) _ hmem
        have hid : getPostId (rest.foldl processOnePost (processOnePost st r)).dom p
            = getPostId st.dom q :=
          getPostId_congr hchain (sameShape_symm hqp)
        rw [hid]; exact hmem2
    · exact ih (processOnePost st r₀) r hrrest p hfind helig

/-- When every scanned element is either ineligible or already recorded,
the injector loop is a complete no-op. -/
theorem foldl_process_noop (refs : List Nat) :
    ∀ st : InjectState,
      (∀ r ∈ refs, ∀ p, findPost st.dom r = some p →
        eligiblePost p = true → getPostId st.dom p ∈ st.processed) →
      refs.foldl processOnePost st = st := by
  induction refs with
  | nil => intro st _; rfl
  | cons r₀ rest ih =>
    intro st H
    have hstep : processOnePost st r₀ = st := by
      cases hq : findPost st.dom r₀ with
      | none => simp [processOnePost, hq]
      | some q =>
        by_cases h1 : getPostId st.dom q ∈ st.processed
        · simp [processOnePost, hq, h1]
        · have hnelig : eligiblePost q = false := by
            cases helig : eligiblePost q with
            | true => exact absurd (H r₀ (List.mem_cons_self r₀ rest) q hq helig) h1
            | false => rfl
          cases hc : isCommentable q with
          | false => simp [processOnePost, hq, h1, hc]
          | true =>
            have hh : hasContent q = false := by
              simpa [eligiblePost, hc] using hnelig
            simp [processOnePost, hq, h1, hc, hh]
    rw [List.foldl_cons, hstep]
    exact ih st (fun r hr => H r (List.mem_cons_of_mem r₀ hr))

/-- Unfolding of `addButtonsToPosts` into its reconcile/scan/inject parts. -/
theorem addButtonsToPosts_eq (d : Dom) (pr : List String) :
    addButtonsToPosts d pr
      = (scanRefs (cleanupDuplicateButtons d)).foldl processOnePost
          ⟨cleanupDuplicateButtons d, pr, 0⟩ :=
  Eq.refl _

/-- C1: for every pair of consecutive invocations of the
scan-classify-inject pipeline (`addButtonsToPosts`) on a DOM that does not
change between them, the second invocation adds zero new trigger controls:
every post whose identity entered the Processed-Set in the first pass is
skipped in the second, so no post ever carries a second injected control
from repeated passes. -/
theorem c1_second_pass_adds_no_controls (dom : Dom) (processed : List String) :
    (addButtonsToPosts (addButtonsToPosts dom processed).dom
        (addButtonsToPosts dom processed).processed).buttonsAdded = 0 := by
  rw [addButtonsToPosts_eq (addButtonsToPosts dom processed).dom]
  have h1 : DomShape (addButtonsToPosts dom processed).dom
      (cleanupDuplicateButtons dom) := by
    rw [addButtonsToPosts_eq]
    exact foldl_process_shape _ _
  have h2 : DomShape
      (cleanupDuplicateButtons (addButtonsToPosts dom processed).dom)
      (addButtonsToPosts dom processed).dom :=
    cleanup_shape _
  have H : ∀ r ∈ scanRefs (cleanupDuplicateButtons (addButtonsToPosts dom processed).dom),
      ∀ p, findPost (cleanupDuplicateButtons (addButtonsToPosts dom processed).dom) r = some p →
        eligiblePost p = true →
        getPostId (cleanupDuplicateButtons (addButtonsToPosts dom processed).dom) p
          ∈ (addButtonsToPosts dom processed).processed := by
    intro r hr p hfind helig
    obtain ⟨p₁, hp₁, hpp₁⟩ := findPost_some_congr h2 r hfind
    have helig₁ : eligiblePost p₁ = true := by
      rw [← eligiblePost_congr hpp₁]; exact helig
    have hr1 : r ∈ scanRefs (cleanupDuplicateButtons dom) := by
      rw [← scanRefs_congr (domShape_trans h2 h1)]; exact hr
    rw [addButtonsToPosts_eq] at hp₁
    have hpop := foldl_process_populates
      (scanRefs (cleanupDuplicateButtons dom))
      ⟨cleanupDuplicateButtons dom, processed, 0⟩ r hr1 p₁ hp₁ helig₁
    rw [← addButtonsToPosts_eq] at hpop
    have hid : getPostId (cleanupDuplicateButtons (addButtonsToPosts dom processed).dom) p
        = getPostId (addButtonsToPosts dom processed).dom p₁ :=
      getPostId_congr h2 hpp₁
    rw [hid]
    exact hpop
  rw [foldl_process_noop _ _ H]

/-! ### Provenance of Processed-Set entries -/

/-- One loop step adds an identity only for an eligible found element. -/
theorem processOnePost_processed_cases {st : InjectState} {r : Nat} {x : String}
    (h : x ∈ (processOnePost st r).processed) :
    x ∈ st.processed
    ∨ ∃ q, findPost st.dom r = some q ∧ eligiblePost q = true
        ∧ getPostId st.dom q = x := by
  cases hq : findPost st.dom r with
  | none =>
    simp only [processOnePost, hq] at h
    exact Or.inl h
  | some q =>
    by_cases h1 : getPostId st.dom q ∈ st.processed
    · simp only [processOnePost, hq, h1, if_true] at h
      exact Or.inl h
    · cases hc : isCommentable q with
      | false =>
        simp [processOnePost, hq, h1, hc] at h
        exact Or.inl h
      | true =>
        cases hh : hasContent q with
        | false =>
          simp [processOnePost, hq, h1, hc, hh] at h
          exact Or.inl h
        | true =>
          have helig : eligiblePost q = true := by simp [eligiblePost, hc, hh]
          by_cases h4 : q.buttons.isEmpty = false
          · simp [processOnePost, hq, h1, hc, hh, h4] at h
            rcases mem_addId_cases h with he | hm
            · exact Or.inr ⟨q, rfl, helig, he.symm⟩
            · exact Or.inl hm
          · simp [processOnePost, hq, h1, hc, hh, h4] at h
            rcases mem_addId_cases h with he | hm
            · exact Or.inr ⟨q, rfl, helig, he.symm⟩
            · exact Or.inl hm

/-- Identities present after a pass either were present before it or come
from an eligible scanned element. -/
theorem foldl_process_processed_cases (refs : List Nat) :
    ∀ (st : InjectState) (x : String),
      x ∈ (refs.foldl processOnePost st).processed →
      x ∈ st.processed
      ∨ ∃ r ∈ refs, ∃ q, findPost st.dom r = some q ∧ eligiblePost q = true
          ∧ getPostId st.dom q = x := by
  induction refs with
  | nil => intro st x h; exact Or.inl h
  | cons r₀ rest ih =>
    intro st x h
    rw [List.foldl_cons] at h
    rcases ih (processOnePost st r₀) x h with h' | ⟨r, hr, q, hfq, helig, hid⟩
    · rcases processOnePost_processed_cases h' with h'' | ⟨q, hfq, helig, hid⟩
      · exact Or.inl h''
      · exact Or.inr ⟨r₀, List.mem_cons_self r₀ rest, q, hfq, helig, hid⟩
    · have hsh : DomShape (processOnePost st r₀).dom st.dom :=
        processOnePost_shape st r₀
      obtain ⟨q', hq', hqq'⟩ := findPost_some_congr hsh r hfq
      refine Or.inr ⟨r, List.mem_cons_of_mem r₀ hr, q', hq', ?_, ?_⟩
      · rw [← eligiblePost_congr hqq']; exact helig
      · rw [← getPostId_congr hsh hqq']; exact hid

/-- Live lookup of an injected element commutes with `addButtonTo`. -/
theorem findPost_addButtonTo (d : Dom) (r₀ r : Nat) :
    findPost (addButtonTo d r₀) r
      = (findPost d r).map (fun p =>
          if p.ref == r₀ then { p with buttons := p.buttons ++ [injectedButton] }
          else p) := by
  unfold findPost addButtonTo
  show (d.posts.map _).find? _ = _
  induction d.posts with
  | nil => rfl
  | cons a rest ih =>
    simp only [List.map_cons, List.find?]
    have hres : (if a.ref == r₀ then
        ({ a with buttons := a.buttons ++ [injectedButton] } : Post)
        else a).ref = a.ref := by
      split <;> rfl
    rw [hres]
    cases ha : a.ref == r with
    | true => rfl
    | false => exact ih

/-- The loop step either leaves the document alone or injects into an
eligible found element. -/
theorem processOnePost_dom_cases (st : InjectState) (r₀ : Nat) :
    (processOnePost st r₀).dom = st.dom
    ∨ ((processOnePost st r₀).dom = addButtonTo st.dom r₀
        ∧ ∃ q, findPost st.dom r₀ = some q ∧ eligiblePost q = true) := by
  cases hq : findPost st.dom r₀ with
  | none => simp [processOnePost, hq]
  | some q =>
    by_cases h1 : getPostId st.dom q ∈ st.processed
    · simp [processOnePost, hq, h1]
    · cases hc : isCommentable q with
      | false => simp [processOnePost, hq, h1, hc]
      | true =>
        cases hh : hasContent q with
        | false => simp [processOnePost, hq, h1, hc, hh]
        | true =>
          by_cases h4 : q.buttons.isEmpty = false
          · simp [processOnePost, hq, h1, hc, hh, h4]
          · right
            refine ⟨by simp [processOnePost, hq, h1, hc, hh, h4], q, rfl, ?_⟩
            simp [eligiblePost, hc, hh]

/-- An element that is ineligible at the start of the loop is never touched:
the loop still finds the identical snapshot afterwards. -/
theorem processOnePost_keeps_post {st : InjectState} {r₀ r : Nat} {p : Post}
    (hp : findPost st.dom r = some p) (hnelig : eligiblePost p = false) :
    findPost (processOnePost st r₀).dom r = some p := by
  rcases processOnePost_dom_cases st r₀ with hdom | ⟨hdom, q, hq, heligq⟩
  · rw [hdom]; exact hp
  · have hpref0 := List.find?_some (show st.dom.posts.find?
      (fun q' => q'.ref == r) = some p from hp)
    have hpref : (p.ref == r) = true := hpref0
    have hr : p.ref = r := by simpa using hpref
    have hrne : p.ref ≠ r₀ := by
      intro hrr
      have hreq : r = r₀ := by rw [← hr]; exact hrr
      rw [hreq, hq] at hp
      have hqp : q = p := Option.some.inj hp
      rw [← hqp, heligq] at hnelig
      cases hnelig
    rw [hdom, findPost_addButtonTo, hp]
    have hcond : (p.ref == r₀) = false := by simp [hrne]
    simp only [Option.map_some']
    rw [if_neg (by simp [hcond])]

theorem foldl_process_keeps_post (refs : List Nat) :
    ∀ (st : InjectState) (r : Nat) (p : Post),
      findPost st.dom r = some p → eligiblePost p = false →
      findPost (refs.foldl processOnePost st).dom r = some p := by
  induction refs with
  | nil => intro st r p hp _; exact hp
  | cons r₀ rest ih =>
    intro st r p hp hnelig
    rw [List.foldl_cons]
    exact ih (processOnePost st r₀) r p (processOnePost_keeps_post hp hnelig) hnelig

/-! ### C2: handling of ineligible scanned posts -/

/-- A scanned, non-commentable, contentless post: `data-urn` set, no
descendants at all, no control. -/
def exPost2 : Post :=
  { ref := 0, dataUrn := some "p1", elemId := none
  , classes := ["feed-shared-update-v2"], descendants := [], buttons := [] }

/-- A document holding only `exPost2`. -/
def exDom2 : Dom :=
  ⟨[exPost2]⟩

/-- C2 counterexample: the claim says an ineligible scanned post has its
identity recorded in the Processed-Set ("record-as-processed without adding
a control").  On the code, the `!isCommentable` / `!hasContent` branches
return without touching `processedPostIds` (content.js:1422-1431): after a
full pass over a document containing one scanned, ineligible post, starting
from an empty Processed-Set, the set is still empty and in particular does
not hold the post's identity `urn-p1`. -/
theorem c2_counterexample :
    isCommentable exPost2 = false
    ∧ (addButtonsToPosts exDom2 []).processed = []
    ∧ getPostId exDom2 exPost2 ∉ (addButtonsToPosts exDom2 []).processed := by
  refine ⟨rfl, rfl, ?_⟩
  have h : (addButtonsToPosts exDom2 []).processed = [] := rfl
  rw [h]
  exact List.not_mem_nil _

/-- C2 amended: a scanned post that is not eligible per the Post Classifier
is skipped by the Button Injector pass and no trigger control is attached to
it, but its Post Identity is NOT recorded in the Processed-Set: the set only
gains identities of eligible posts (ones that already carry a control or
receive one), so when no post sharing the identity is eligible the identity
stays out of the set. -/
theorem c2_amended_inelig_skipped_not_recorded
    (dom : Dom) (processed : List String) (r : Nat) (p : Post)
    (hfind : findPost (cleanupDuplicateButtons dom) r = some p)
    (hnelig : eligiblePost p = false)
    (hunique : ∀ q ∈ (cleanupDuplicateButtons dom).posts,
      getPostId (cleanupDuplicateButtons dom) q
        = getPostId (cleanupDuplicateButtons dom) p →
      eligiblePost q = false)
    (hnotin : getPostId (cleanupDuplicateButtons dom) p ∉ processed) :
    getPostId (cleanupDuplicateButtons dom) p
        ∉ (addButtonsToPosts dom processed).processed
    ∧ findPost (addButtonsToPosts dom processed).dom r = some p := by
  constructor
  · intro hmem
    rw [addButtonsToPosts_eq] at hmem
    rcases foldl_process_processed_cases _ _ _ hmem with h | ⟨r', _, q, hfq, helig, hid⟩
    · exact hnotin h
    · have hq_mem : q ∈ (cleanupDuplicateButtons dom).posts :=
        List.mem_of_find?_eq_some hfq
      exact absurd helig (by simp [hunique q hq_mem hid])
  · rw [addButtonsToPosts_eq]
    exact foldl_process_keeps_post _ _ _ _ hfind hnelig

/-- Closed instance of the amended C2 theorem at `exDom2`. -/
theorem c2_amended_witness :
    getPostId (cleanupDuplicateButtons exDom2) exPost2
      ∉ (addButtonsToPosts exDom2 []).processed :=
  (c2_amended_inelig_skipped_not_recorded exDom2 [] 0 exPost2 rfl rfl
    (by decide) (by simp)).1

/-! ### C6: the Duplicate Reconciler -/

/-- Lookup by reference commutes with a reference-preserving map. -/
theorem find?_map_ref_preserving {f : Post → Post}
    (hf : ∀ q, (f q).ref = q.ref) (r : Nat) :
    ∀ l : List Post,
      (l.map f).find? (fun q => q.ref == r)
        = (l.find? (fun q => q.ref == r)).map f
  | [] => Eq.refl _
  | a :: rest => by
    simp only [List.map_cons, List.find?, hf a]
    cases ha : a.ref == r with
    | true => rfl
    | false => exact find?_map_ref_preserving hf r rest

/-- Grouping phase: if `p` is the first element at its reference, it is
anchored and carries controls, and no other anchored, control-carrying post
shares its identity, then phase 1 leaves `p` with exactly its first control. -/
theorem phase1_keeps_first (dom : Dom) (p : Post)
    (hanch : cleanupAnchored p = true) (hbtn : p.buttons ≠ []) :
    ∀ (l : List Post) (seen : List String),
      l.find? (fun q => q.ref == p.ref) = some p →
      getPostId dom p ∉ seen →
      (∀ q ∈ l, q.ref ≠ p.ref → cleanupAnchored q = true → q.buttons ≠ [] →
        getPostId dom q ≠ getPostId dom p) →
      (phase1Go dom seen l).find? (fun q => q.ref == p.ref)
        = some { p with buttons := p.buttons.take 1 }
  | [], _, hfind, _, _ => absurd hfind (by simp)
  | a :: rest, seen, hfind, hseen, hothers => by
    cases har : a.ref == p.ref with
    | true =>
      have ha : a = p := by
        simp only [List.find?, har] at hfind
        exact Option.some.inj hfind
      subst ha
      have hcond : (cleanupAnchored a && !a.buttons.isEmpty) = true := by
        simp [hanch, hbtn]
      simp only [phase1Go, hcond, if_true]
      rw [if_neg hseen]
      simp [List.find?, har]
    | false =>
      have hfind' : rest.find? (fun q => q.ref == p.ref) = some p := by
        simpa only [List.find?, har] using hfind
      have harne : a.ref ≠ p.ref := by simpa using har
      have hothers' : ∀ q ∈ rest, q.ref ≠ p.ref → cleanupAnchored q = true →
          q.buttons ≠ [] → getPostId dom q ≠ getPostId dom p :=
        fun q hq => hothers q (List.mem_cons_of_mem a hq)
      by_cases hca : (cleanupAnchored a && !a.buttons.isEmpty) = true
      · have hane : getPostId dom a ≠ getPostId dom p := by
          have hca' := hca
          simp only [Bool.and_eq_true] at hca'
          have hne : a.buttons ≠ [] := by
            have hb := hca'.2
            simp only [Bool.not_eq_true'] at hb
            simpa [List.isEmpty_iff] using hb
          exact hothers a (List.mem_cons_self a rest) harne hca'.1 hne
        by_cases hks : getPostId dom a ∈ seen
        · simp only [phase1Go, hca, if_true, hks]
          simp only [List.find?, har]
          exact phase1_keeps_first dom p hanch hbtn rest seen hfind' hseen hothers'
        · simp only [phase1Go, hca, if_true, hks, if_false]
          simp only [List.find?, har]
          refine phase1_keeps_first dom p hanch hbtn rest _ hfind' ?_ hothers'
          intro hmem
          rcases List.mem_cons.mp hmem with he | hm
          · exact hane he.symm
          · exact hseen hm
      · simp only [phase1Go, hca]
        simp only [Bool.not_eq_true] at hca
        simp only [hca, Bool.false_eq_true, if_false]
        simp only [List.find?, har]
        exact phase1_keeps_first dom p hanch hbtn rest seen hfind' hseen hothers'

/-- C6 amended: for a post that carries more than one injected trigger
control, is still eligible, is the element its reference resolves to, and
whose identity is shared by no other anchored control-carrying post, one
Duplicate Reconciler pass retains exactly the first control in document
order and removes the others (with their wrappers): afterwards the post owns
exactly one control.  (A post that is no longer eligible instead loses all
its controls in the same pass, and posts sharing one identity are reconciled
as a single group — see the counterexample.) -/
theorem c6_reconciler_keeps_first_of_eligible (dom : Dom) (p : Post)
    (hfind : findPost dom p.ref = some p)
    (hanch : cleanupAnchored p = true)
    (helig : eligiblePost p = true)
    (hlen : 1 < p.buttons.length)
    (hunique : ∀ q ∈ dom.posts, q.ref ≠ p.ref → cleanupAnchored q = true →
      q.buttons ≠ [] → getPostId dom q ≠ getPostId dom p) :
    findPost (cleanupDuplicateButtons dom) p.ref
      = some { p with buttons := p.buttons.take 1 }
    ∧ ({ p with buttons := p.buttons.take 1 } : Post).buttons.length = 1 := by
  have hbtn : p.buttons ≠ [] := by
    intro h
    rw [h] at hlen
    simp at hlen
  have h1 := phase1_keeps_first dom p hanch hbtn dom.posts []
    hfind (by simp) hunique
  have hmap := find?_map_ref_preserving (f := phase2)
    (fun q => (phase2_shape q).ref) p.ref (phase1Go dom [] dom.posts)
  have hres : findPost (cleanupDuplicateButtons dom) p.ref
      = some (phase2 { p with buttons := p.buttons.take 1 }) := by
    show ((phase1Go dom [] dom.posts).map phase2).find? (fun q => q.ref == p.ref)
      = some (phase2 { p with buttons := p.buttons.take 1 })
    rw [hmap, h1]
    rfl
  obtain ⟨hc, hh⟩ : isCommentable p = true ∧ hasContent p = true := by
    simp only [eligiblePost, Bool.and_eq_true] at helig
    exact helig
  have hshape : SameShape ({ p with buttons := p.buttons.take 1 } : Post) p :=
    ⟨rfl, rfl, rfl, rfl, rfl⟩
  have hbne : ({ p with buttons := p.buttons.take 1 } : Post).buttons.isEmpty = false := by
    cases hb : p.buttons with
    | nil => exact absurd hb hbtn
    | cons a t => simp [hb]
  have hphase2 : phase2 ({ p with buttons := p.buttons.take 1 } : Post)
      = { p with buttons := p.buttons.take 1 } := by
    unfold phase2
    rw [if_neg (by simp [hbne])]
    rw [if_neg (by simp [(cleanupAnchored_congr hshape).trans hanch])]
    rw [if_neg (by simp [(isCommentable_congr hshape).trans hc])]
    rw [if_neg (by simp [(hasContent_congr hshape).trans hh])]
  constructor
  · rw [hres, hphase2]
  · have : p.buttons.length ≠ 0 := by omega
    simp [List.length_take]
    omega

/-- A no-longer-eligible post (no comment affordance, no content) carrying
two injected controls. -/
def exPost6 : Post :=
  { ref := 0, dataUrn := some "c6", elemId := none
  , classes := ["feed-shared-update-v2"], descendants := []
  , buttons := [⟨true⟩, ⟨true⟩] }

/-- A document holding only `exPost6`. -/
def exDom6 : Dom :=
  ⟨[exPost6]⟩

/-- C6 counterexample: the claim says every post with more than one control
ends one Duplicate Reconciler pass with exactly one.  But the pass also
removes controls from posts that are no longer eligible
(content.js:1694-1718): the ineligible post `exPost6` starts with two
controls and ends the pass with zero, not one. -/
theorem c6_counterexample :
    exPost6.buttons.length = 2
    ∧ (cleanupDuplicateButtons exDom6).posts.map (fun q => q.buttons.length) = [0]
    ∧ (cleanupDuplicateButtons exDom6).posts.map (fun q => q.buttons.length) ≠ [1] := by
  exact ⟨rfl, rfl, by decide⟩

/-- A comment-affordance descendant. -/
def exElemCommentBtn : Elem :=
  ⟨["button[aria-label*=\"comment\" i]"], ""⟩

/-- A content-region descendant with a 40-character text. -/
def exElemContent : Elem :=
  ⟨[".update-components-text"], "A sufficiently long post body for tests."⟩

/-- An eligible, anchored post carrying two injected controls. -/
def exPost6e : Post :=
  { ref := 3, dataUrn := some "w6", elemId := none
  , classes := ["feed-shared-update-v2"]
  , descendants := [exElemCommentBtn, exElemContent]
  , buttons := [⟨true⟩, ⟨false⟩] }

/-- A document holding only `exPost6e`. -/
def exDom6e : Dom :=
  ⟨[exPost6e]⟩

/-- Closed instance of the amended C6 theorem: the eligible double-control
post keeps exactly its first control. -/
theorem c6_reconciler_witness :
    findPost (cleanupDuplicateButtons exDom6e) exPost6e.ref
      = some { exPost6e with buttons := exPost6e.buttons.take 1 } :=
  (c6_reconciler_keeps_first_of_eligible exDom6e exPost6e rfl rfl (by decide)
    (by decide) (by decide)).1

/-! ### C7: the content check -/

/-- The claim's reading of the content check: some element matching a listed
content-region selector has trimmed text of length at least 20, or some
listed media-presence selector matches inside the post. -/
def hasContentClaim (post : Post) : Prop :=
  (∃ sel ∈ hasContentSelectors, ∃ e ∈ post.descendants,
      sel ∈ e.selectors ∧ minContentLength ≤ strLen (jsTrim e.text))
  ∨ (∃ sel ∈ mediaSelectors, ∃ e ∈ post.descendants, sel ∈ e.selectors)

/-- A post with zero text everywhere but a recognised image container. -/
def exMediaPost : Post :=
  { ref := 9, dataUrn := none, elemId := none, classes := []
  , descendants := [⟨[".feed-shared-image__container"], ""⟩], buttons := [] }

/-- C7: `hasContent` returns true precisely when some content-region element
has trimmed text of length at least 20 or some media selector matches; in
particular the zero-text post with a recognised image container classifies
as having extractable content. -/
theorem c7_hasContent_characterisation :
    (∀ post : Post, hasContent post = true ↔ hasContentClaim post)
    ∧ hasContent exMediaPost = true := by
  constructor
  · intro post
    simp only [hasContent, hasContentClaim, querySelectorAll,
      Bool.or_eq_true, List.any_eq_true, List.mem_filter,
      decide_eq_true_eq, Bool.not_eq_true', List.isEmpty_eq_false_iff_exists_mem]
    constructor
    · rintro (⟨sel, hsel, e, ⟨he, hm⟩, hlen⟩ | ⟨sel, hsel, e, he, hm⟩)
      · exact Or.inl ⟨sel, hsel, e, he, hm, hlen⟩
      · exact Or.inr ⟨sel, hsel, e, he, hm⟩
    · rintro (⟨sel, hsel, e, he, hm, hlen⟩ | ⟨sel, hsel, e, he, hm⟩)
      · exact Or.inl ⟨sel, hsel, e, ⟨he, hm⟩, hlen⟩
      · exact Or.inr ⟨sel, hsel, e, he, hm⟩
  · rfl

/-! ### C8: the content extractor -/

theorem firstLongTextIn_some_long {n : Nat} {t : String} :
    ∀ {l : List Elem}, firstLongTextIn n l = some t → n < strLen t := by
  intro l
  induction l with
  | nil => intro h; exact absurd h (by simp [firstLongTextIn])
  | cons e rest ih =>
    intro h
    simp only [firstLongTextIn] at h
    by_cases hl : n < strLen (jsTrim e.text)
    · rw [if_pos hl] at h
      rw [← Option.some.inj h]
      exact hl
    · rw [if_neg hl] at h
      exact ih h

theorem extractBySelectors_some_long {post : Post} {t : String} :
    ∀ {sels : List String}, extractBySelectors post sels = some t → 10 < strLen t := by
  intro sels
  induction sels with
  | nil => intro h; exact absurd h (by simp [extractBySelectors])
  | cons sel rest ih =>
    intro h
    simp only [extractBySelectors] at h
    cases hf : firstLongTextIn 10 (querySelectorAll post sel) with
    | some t' =>
      rw [hf] at h
      rw [← Option.some.inj h]
      exact firstLongTextIn_some_long hf
    | none =>
      rw [hf] at h
      exact ih h

theorem strLen_pos_ne_empty {t : String} (h : 0 < strLen t) : t ≠ "" := by
  intro he
  rw [he] at h
  exact absurd h (by decide)

/-- C8: `extractPostContent` terminates normally and never returns the empty
string: it returns the first text longer than 10 characters found through the
specific content-region selectors, otherwise the first text longer than 30
characters from the generic span/p/div sweep, and otherwise the fixed
placeholder "LinkedIn post". -/
theorem c8_extract_total_nonempty (post : Post) :
    extractPostContent post ≠ ""
    ∧ (∀ t, extractBySelectors post extractContentSelectors = some t →
        extractPostContent post = t ∧ 10 < strLen t)
    ∧ (extractBySelectors post extractContentSelectors = none →
        ∀ t, firstLongTextIn 30 (genericSweep post) = some t →
          extractPostContent post = t ∧ 30 < strLen t)
    ∧ (extractBySelectors post extractContentSelectors = none →
        firstLongTextIn 30 (genericSweep post) = none →
        extractPostContent post = "LinkedIn post") := by
  cases hs : extractBySelectors post extractContentSelectors with
  | some t0 =>
    have hlong := extractBySelectors_some_long hs
    have hval : extractPostContent post = t0 := by
      simp [extractPostContent, hs]
    refine ⟨?_, ?_, ?_, ?_⟩
    · rw [hval]
      exact strLen_pos_ne_empty (by omega)
    · intro t ht
      have he := Option.some.inj ht
      exact ⟨hval.trans he, he ▸ hlong⟩
    · intro hn
      exact absurd hn (by simp)
    · intro hn
      exact absurd hn (by simp)
  | none =>
    cases hg : firstLongTextIn 30 (genericSweep post) with
    | some t0 =>
      have hlong := firstLongTextIn_some_long hg
      have hval : extractPostContent post = t0 := by
        simp [extractPostContent, hs, hg]
      refine ⟨?_, ?_, ?_, ?_⟩
      · rw [hval]
        exact strLen_pos_ne_empty (by omega)
      · intro t ht
        exact absurd ht (by simp)
      · intro _ t ht
        have he := Option.some.inj ht
        exact ⟨hval.trans he, he ▸ hlong⟩
      · intro _ hn
        exact absurd hn (by simp)
    | none =>
      have hval : extractPostContent post = "LinkedIn post" := by
        simp [extractPostContent, hs, hg]
      refine ⟨?_, ?_, ?_, ?_⟩
      · rw [hval]
        intro h
        exact absurd h (by decide)
      · intro t ht
        exact absurd ht (by simp)
      · intro _ t ht
        exact absurd ht (by simp)
      · intro _ _
        exact hval

/-- A post with no descendants at all. -/
def exEmptyPost : Post :=
  { ref := 11, dataUrn := none, elemId := none, classes := []
  , descendants := [], buttons := [] }

/-- Closed instance of C8 at a post where nothing usable is found. -/
theorem c8_extract_witness :
    extractPostContent exEmptyPost = "LinkedIn post" :=
  (c8_extract_total_nonempty exEmptyPost).2.2.2 rfl rfl

/-! ### C3: failure handling of the post-discovery scan

`addButtonsToPosts` wraps its whole body — the selector loop of
content.js:1396-1409 included — in a single `try` whose `catch` sits at
content.js:1651-1654 and only logs.  To settle how a failing selector
evaluation propagates, the scan is modelled over an environment-provided
evaluator: `evalSel sel` is `document.querySelectorAll(sel)` for that
pattern, returning the matched element references or throwing. -/

/-- The selector loop (content.js:1399-1405): evaluate each pattern in order
and accumulate `allPosts`; a throw escapes the loop at once. -/
def collectPosts (evalSel : String → Except String (List Nat)) :
    List String → Except String (List Nat)
  | [] => Except.ok []
  | sel :: rest =>
    match evalSel sel with
    | Except.error e => Except.error e
    | Except.ok posts =>
      match collectPosts evalSel rest with
      | Except.error e => Except.error e
      | Except.ok more => Except.ok (posts ++ more)

/-- Reference deduplication (`[...new Set(allPosts)]`, content.js:1408). -/
def dedupRefs (seen : List Nat) : List Nat → List Nat
  | [] => []
  | r :: rest =>
    if r ∈ seen then dedupRefs seen rest
    else r :: dedupRefs (r :: seen) rest

/-- The scan as its caller sees it: the result is always an `ok` list — a
throw anywhere in the selector loop is swallowed by the pass-level catch
(content.js:1651-1654), abandoning the pass with no posts processed. -/
def scanPass (evalSel : String → Except String (List Nat))
    (patterns : List String) : Except String (List Nat) :=
  match collectPosts evalSel patterns with
  | Except.ok l => Except.ok (dedupRefs [] l)
  | Except.error _ => Except.ok []

/-- The claim's reading of the selector loop: a failing pattern is skipped
and scanning continues through all remaining patterns. -/
def collectPostsClaim (evalSel : String → Except String (List Nat)) :
    List String → List Nat
  | [] => []
  | sel :: rest =>
    (match evalSel sel with
     | Except.ok posts => posts
     | Except.error _ => []) ++ collectPostsClaim evalSel rest

/-- An evaluator whose first pattern throws and whose second matches one
element. -/
def exEval : String → Except String (List Nat) :=
  fun sel => if sel = "a" then Except.error "boom" else Except.ok [7]

/-- C3 counterexample: when evaluating the first pattern fails, the code
abandons the entire pass (the pass-level catch), so the element matched by
the second pattern is never collected; under the claim's
skip-one-pattern-and-continue semantics it would be.  The two semantics
disagree at this input. -/
theorem c3_counterexample :
    scanPass exEval ["a", "b"] = Except.ok []
    ∧ collectPostsClaim exEval ["a", "b"] = [7]
    ∧ scanPass exEval ["a", "b"]
        ≠ Except.ok (dedupRefs [] (collectPostsClaim exEval ["a", "b"])) := by
  refine ⟨rfl, rfl, ?_⟩
  intro h
  rw [(rfl : collectPostsClaim exEval ["a", "b"] = [7])] at h
  simp [scanPass, collectPosts, exEval, dedupRefs] at h

/-- A failing pattern turns the whole collection into an error. -/
theorem collectPosts_error_of_mem {evalSel : String → Except String (List Nat)}
    {sel : String} {e : String} (hsel : evalSel sel = Except.error e) :
    ∀ (pre rest : List String), ∃ e', collectPosts evalSel (pre ++ sel :: rest)
      = Except.error e' := by
  intro pre
  induction pre with
  | nil =>
    intro rest
    refine ⟨e, ?_⟩
    simp [collectPosts, hsel]
  | cons p pre' ih =>
    intro rest
    cases hp : evalSel p with
    | error e₂ => exact ⟨e₂, by simp [collectPosts, hp]⟩
    | ok l =>
      obtain ⟨e₁, he₁⟩ := ih rest
      refine ⟨e₁, ?_⟩
      simp only [List.cons_append, collectPosts, hp, List.append_eq, he₁]

/-- C3 amended: the scan never raises to its caller; the collected set is
empty (never null) when no pattern matches; but an internal failure while
evaluating one pattern is caught only at the whole-pass boundary: the pass
is abandoned with nothing collected, so the patterns after the failing one
contribute nothing (the result does not depend on them), rather than
scanning continuing through the remaining patterns. -/
theorem c3_scan_failure_handling :
    (∀ (evalSel : String → Except String (List Nat)) (patterns : List String),
      ∃ l, scanPass evalSel patterns = Except.ok l)
    ∧ (∀ (evalSel : String → Except String (List Nat)) (patterns : List String),
        (∀ sel ∈ patterns, evalSel sel = Except.ok []) →
        scanPass evalSel patterns = Except.ok [])
    ∧ (∀ (evalSel : String → Except String (List Nat))
        (pre : List String) (sel : String) (rest : List String) (e : String),
        evalSel sel = Except.error e →
        scanPass evalSel (pre ++ sel :: rest) = scanPass evalSel (pre ++ [sel])) := by
  refine ⟨?_, ?_, ?_⟩
  · intro evalSel patterns
    unfold scanPass
    cases collectPosts evalSel patterns with
    | ok l => exact ⟨dedupRefs [] l, rfl⟩
    | error _ => exact ⟨[], rfl⟩
  · intro evalSel patterns hall
    have hcoll : collectPosts evalSel patterns = Except.ok [] := by
      induction patterns with
      | nil => rfl
      | cons sel rest ih =>
        have hsel := hall sel (List.mem_cons_self sel rest)
        have hrest := ih fun s hs => hall s (List.mem_cons_of_mem sel hs)
        simp [collectPosts, hsel, hrest]
    simp [scanPass, hcoll, dedupRefs]
  · intro evalSel pre sel rest e hsel
    obtain ⟨e₁, he₁⟩ := collectPosts_error_of_mem hsel pre rest
    obtain ⟨e₂, he₂⟩ := collectPosts_error_of_mem hsel pre []
    simp [scanPass, he₁, he₂]

/-- Closed instance of the amended C3 theorem: with every evaluation failing,
the pass result does not depend on the patterns after the failing one. -/
theorem c3_scan_failure_witness :
    scanPass (fun _ => Except.error "boom") ["a", "b"]
      = scanPass (fun _ => Except.error "boom") ["a"] :=
  c3_scan_failure_handling.2.2 (fun _ => Except.error "boom") [] "a" ["b"] "boom" rfl

/-! ### C4: the insertion technique cascades

`pasteComment` (content.js:1841-1999) tries four techniques in order —
clipboard paste, direct text assignment, InputEvent simulation,
character-by-character typing.  Each technique's actual effect on the
editable region depends on the browser environment, so a technique is
modelled as an environment-provided function from the target comment and
the current box text to the box text it leaves behind (`none` models the
technique throwing; each technique's exceptions are caught separately at
content.js:1877/1906/1944/1995, leaving the box as it was). -/

/-- One insertion technique of `pasteComment`, as its environment effect. -/
def Technique : Type :=
  String → String → Option String

/-- One step of the `pasteComment` cascade: skip once successful, otherwise
run the technique and judge success by the non-emptiness check
`commentBox.textContent || commentBox.innerText`
(content.js:1871/1900/1930-1937/1989). -/
def pasteApproachStep (comment : String) (st : Bool × String)
    (tech : Technique) : Bool × String :=
  if st.1 then st
  else
    match tech comment st.2 with
    | none => st
    | some t => (t != "", t)

/-- The `pasteComment` insertion cascade (content.js:1841-1999): the box is
cleared first (content.js:1832), then the techniques run in order; the
function's return value is the final success flag (content.js:2061). -/
def pasteCommentCascade (comment : String) (techs : List Technique) :
    Bool × String :=
  techs.foldl (pasteApproachStep comment) (false, "")

/-- The three insertion methods of `forceCommentInsertion`
(content.js:2682-2711): methods 1 and 2 are judged by
`textContent.includes(comment.substring(0, 10))`; method 3 runs unchecked.
Each `mᵢ` is the box text the method leaves behind. -/
def forceInsertText (comment : String) (m1 m2 m3 : String → String) : String :=
  let t1 := m1 comment
  if strIncludes t1 (strTake comment 10) = true then t1
  else
    let t2 := m2 comment
    if strIncludes t2 (strTake comment 10) = true then t2
    else m3 comment

/-- Model of `forceCommentInsertion` once a comment box has been focused: the method
cascade runs, and the function returns `true` regardless of its outcome —
both the post-button path and the Enter-key path end in `return true`
(content.js:2762-2765, 2799). -/
def forceCommentInsertionOutcome (comment : String)
    (m1 m2 m3 : String → String) : Bool × String :=
  (true, forceInsertText comment m1 m2 m3)

/-- A first technique that leaves the unrelated text "x" in the box. -/
def exTech1 : Technique :=
  fun _ _ => some "x"

/-- A technique that leaves the box untouched. -/
def exTechKeep : Technique :=
  fun _ box => some box

/-- The end-to-end comment of the specification's test scenario. -/
def exComment : String :=
  "Huge news! Congrats on the raise!"

/-- C4 counterexample: the claim says a technique is judged successful
exactly when the resulting text is non-empty AND matches at least the first
10 characters of the target, and that the operation reports failure when
every technique fails that check.  In `pasteComment` the per-technique check
is only non-emptiness: with a first technique that leaves the unrelated text
"x", the cascade stops and the operation reports success even though the
text matches no prefix of the target. -/
theorem c4_counterexample :
    (pasteCommentCascade exComment [exTech1, exTechKeep, exTechKeep, exTechKeep]).1 = true
    ∧ strIncludes
        (pasteCommentCascade exComment [exTech1, exTechKeep, exTechKeep, exTechKeep]).2
        (strTake exComment 10) = false := by
  exact ⟨rfl, by decide⟩

/-- A prefix of a list is found by the occurrence search. -/
theorem startsList_take (n : Nat) :
    ∀ l : List Char, startsList (l.take n) l = true := by
  intro l
  induction l generalizing n with
  | nil => cases n <;> rfl
  | cons c rest ih =>
    cases n with
    | zero => rfl
    | succ m =>
      simp only [List.take, startsList]
      simp [ih]

theorem hasSubList_of_startsList {sub l : List Char}
    (h : startsList sub l = true) : hasSubList sub l = true := by
  cases l with
  | nil => simpa [hasSubList] using h
  | cons b bs => simp [hasSubList, h]

/-- Any string `includes` its own 10-character head. -/
theorem strIncludes_take_self (s : String) (n : Nat) :
    strIncludes s (strTake s n) = true :=
  hasSubList_of_startsList (startsList_take n s.data)

/-- C4 amended: in `pasteComment` a technique is judged successful exactly
when the box text it leaves is non-empty — the reported success flag always
equals the non-emptiness of the final text, with no prefix-match
requirement; the spec's fallback scenario holds: when the first technique
silently no-ops, a later direct-assignment technique still succeeds and the
final text equals the requested text exactly.  In `forceCommentInsertion`
the first method whose text contains the first 10 characters of the target
ends the cascade, the third method is never checked, and once a box was
focused the operation reports success regardless of the cascade's
outcome. -/
theorem c4_insertion_cascades :
    (∀ (comment : String) (techs : List Technique),
      (pasteCommentCascade comment techs).1
        = ((pasteCommentCascade comment techs).2 != ""))
    ∧ (∀ (comment : String) (t3 t4 : Technique), comment ≠ "" →
        pasteCommentCascade comment
          [fun _ box => some box, fun c _ => some c, t3, t4] = (true, comment))
    ∧ (∀ (comment : String) (m1 m2 m3 : String → String),
        strIncludes (m1 comment) (strTake comment 10) = true →
        forceCommentInsertionOutcome comment m1 m2 m3 = (true, m1 comment))
    ∧ (∀ (comment : String) (m3 : String → String),
        forceCommentInsertionOutcome comment
          (fun _ => "") (fun c => c) m3 = (true, comment)) := by
  refine ⟨?_, ?_, ?_, ?_⟩
  · intro comment techs
    have hinv : ∀ (st : Bool × String), st.1 = (st.2 != "") →
        (techs.foldl (pasteApproachStep comment) st).1
          = ((techs.foldl (pasteApproachStep comment) st).2 != "") := by
      induction techs with
      | nil => intro st h; exact h
      | cons tech rest ih =>
        intro st h
        apply ih
        unfold pasteApproachStep
        by_cases hs : st.1 = true
        · rw [if_pos hs]
          exact h
        · simp only [Bool.not_eq_true] at hs
          simp only [hs, Bool.false_eq_true, if_false]
          cases tech comment st.2 with
          | none => exact h
          | some t => rfl
    exact hinv (false, "") rfl
  · intro comment t3 t4 hne
    unfold pasteCommentCascade
    simp only [List.foldl_cons]
    unfold pasteApproachStep
    simp only [Bool.false_eq_true, if_false]
    have h1 : ("" != "") = false := by decide
    simp only [h1]
    have h2 : (comment != "") = true := bne_iff_ne.mpr hne
    simp [h2]
  · intro comment m1 m2 m3 h
    unfold forceCommentInsertionOutcome forceInsertText
    rw [if_pos h]
  · intro comment m3
    unfold forceCommentInsertionOutcome forceInsertText
    by_cases hc : comment = ""
    · subst hc
      rfl
    · rw [if_neg ?hfirst]
      · rw [if_pos (strIncludes_take_self comment 10)]
      · case hfirst =>
        intro habs
        have hcd : comment.data ≠ [] := by
          intro hnil
          apply hc
          cases comment with
          | mk data =>
            rw [show String.data ⟨data⟩ = data from rfl] at hnil
            rw [hnil]
        cases hcm : comment.data with
        | nil => exact absurd hcm hcd
        | cons c cs =>
          have hne' : (strTake comment 10).data = c :: cs.take 9 := by
            show comment.data.take 10 = c :: cs.take 9
            rw [hcm]
            rfl
          rw [show strIncludes "" (strTake comment 10)
            = hasSubList (strTake comment 10).data [] from rfl, hne'] at habs
          simp [hasSubList, startsList] at habs

/-- Closed instance of the amended C4 theorem: the spec's fallback scenario,
with the first technique a silent no-op and the second a direct assignment,
reports success with the final text equal to the requested comment. -/
theorem c4_insertion_witness :
    pasteCommentCascade exComment
      [fun _ box => some box, fun c _ => some c, exTechKeep, exTechKeep]
      = (true, exComment) :=
  c4_insertion_cascades.2.1 exComment exTechKeep exTechKeep (by decide)

/-! ### C5: the Generation Gateway's retry loop (content.js:121-138, 243-285) -/

/-- Source `API_CONFIG.MAX_RETRIES` (content.js:132). -/
def API_MAX_RETRIES : Nat := 2

/-- Source `API_CONFIG.TIMEOUT_MS` (content.js:137): the fixed per-attempt request
timeout armed through `AbortController` (content.js:253-254). -/
def API_TIMEOUT_MS : Nat := 10000

/-- Outcome of one `fetch` attempt: a response, an abort by the timeout
timer (`AbortError`), or another network error. -/
inductive FetchOutcome where
  | ok (respIdx : Nat)
  | abortTimeout
  | netError (msg : String)
deriving DecidableEq

/-- Observable outcome of the whole retry loop. -/
structure RetryOutcome where
  result : Except String Nat
  attempts : Nat
  delaysMs : List Nat

/-- The retry loop of `generateCommentAPI` (content.js:244-273):
`attemptIdx` is the current value of `retries`, `allowed` the retries still
permitted.  On failure with retries left, the loop waits
`1000 * Math.pow(2, retries)` ms (content.js:271) and retries; on failure
with none left it throws — `AbortError` becomes `'API request timed out'`
(content.js:266-268), any other error is rethrown as-is. -/
def retryGo (fetch : Nat → FetchOutcome) : Nat → Nat → RetryOutcome
  | 0, attemptIdx =>
    match fetch attemptIdx with
    | FetchOutcome.ok r => ⟨Except.ok r, attemptIdx + 1, []⟩
    | FetchOutcome.abortTimeout =>
      ⟨Except.error "API request timed out", attemptIdx + 1, []⟩
    | FetchOutcome.netError msg => ⟨Except.error msg, attemptIdx + 1, []⟩
  | a + 1, attemptIdx =>
    match fetch attemptIdx with
    | FetchOutcome.ok r => ⟨Except.ok r, attemptIdx + 1, []⟩
    | FetchOutcome.abortTimeout =>
      let rest := retryGo fetch a (attemptIdx + 1)
      ⟨rest.result, rest.attempts, 1000 * 2 ^ (attemptIdx + 1) :: rest.delaysMs⟩
    | FetchOutcome.netError _ =>
      let rest := retryGo fetch a (attemptIdx + 1)
      ⟨rest.result, rest.attempts, 1000 * 2 ^ (attemptIdx + 1) :: rest.delaysMs⟩

/-- The fetch phase of `generateCommentAPI`: up to `MAX_RETRIES + 1`
attempts starting at `retries = 0` (content.js:248). -/
def generateCommentAPIFetch (fetch : Nat → FetchOutcome) : RetryOutcome :=
  retryGo fetch API_MAX_RETRIES 0

/-- C5: `generateCommentAPI` makes at most `MAX_RETRIES + 1 = 3` attempts,
each guarded by the fixed 10000 ms timeout; when three consecutive attempts
all time out, the call rejects with the timeout error after exactly three
attempts and two exponentially increasing backoff waits (2000 ms then
4000 ms) rather than hanging or retrying further. -/
theorem c5_gateway_timeout_retries :
    API_TIMEOUT_MS = 10000
    ∧ (∀ fetch : Nat → FetchOutcome,
        (generateCommentAPIFetch fetch).attempts ≤ API_MAX_RETRIES + 1)
    ∧ (∀ fetch : Nat → FetchOutcome,
        fetch 0 = FetchOutcome.abortTimeout →
        fetch 1 = FetchOutcome.abortTimeout →
        fetch 2 = FetchOutcome.abortTimeout →
        generateCommentAPIFetch fetch
          = ⟨Except.error "API request timed out", 3, [2000, 4000]⟩) := by
  have hbound : ∀ (fetch : Nat → FetchOutcome) (allowed idx : Nat),
      (retryGo fetch allowed idx).attempts ≤ idx + allowed + 1 := by
    intro fetch allowed
    induction allowed with
    | zero =>
      intro idx
      cases hf : fetch idx <;> simp [retryGo, hf]
    | succ a ih =>
      intro idx
      cases hf : fetch idx with
      | ok r => simp [retryGo, hf]
      | abortTimeout =>
        have := ih (idx + 1)
        simp only [retryGo, hf]
        omega
      | netError msg =>
        have := ih (idx + 1)
        simp only [retryGo, hf]
        omega
  refine ⟨rfl, ?_, ?_⟩
  · intro fetch
    have := hbound fetch API_MAX_RETRIES 0
    simpa [generateCommentAPIFetch, API_MAX_RETRIES] using this
  · intro fetch h0 h1 h2
    show retryGo fetch 2 0 = _
    simp only [retryGo, h0, h1, h2]
    rfl

/-- Closed instance of C5 at an environment where every attempt times out. -/
theorem c5_gateway_timeout_witness :
    generateCommentAPIFetch (fun _ => FetchOutcome.abortTimeout)
      = ⟨Except.error "API request timed out", 3, [2000, 4000]⟩ :=
  c5_gateway_timeout_retries.2.2 (fun _ => FetchOutcome.abortTimeout) rfl rfl rfl

/-! ### C9: the `getSelectedPost` message branch (content.js:3529-3545) -/

/-- Response shape of the content-layer message handler:
`{success, content?, error?}`. -/
structure HandlerResponse where
  success : Bool
  content : Option String
  error : Option String
deriving DecidableEq

/-- Model of `findCurrentPost()` as invoked at content.js:3531.  No function of this
name is defined anywhere in the repository (content.js, background.js, or
the unnamed sources) — only this single call site exists — so evaluating the
call throws `ReferenceError: findCurrentPost is not defined` regardless of
the page state. -/
def findCurrentPost (_page : Dom) : Except String (Option Post) :=
  Except.error "findCurrentPost is not defined"

/-- The `getSelectedPost` branch of the message listener
(content.js:3529-3541): respond with the extracted content of the found
post, with a not-found error, or — when the branch throws — with the caught
error's message (content.js:3539-3541). -/
def handleGetSelectedPost (page : Dom) : HandlerResponse :=
  match findCurrentPost page with
  | Except.ok (some post) => ⟨true, some (extractPostContent post), none⟩
  | Except.ok none => ⟨false, none, some "No post found"⟩
  | Except.error msg => ⟨false, none, some msg⟩

/-- A page with a fully eligible, extractable post in view: the intended
success case of the contract. -/
def exDom9 : Dom :=
  ⟨[{ ref := 0, dataUrn := some "p9", elemId := none
    , classes := ["feed-shared-update-v2"]
    , descendants := [exElemCommentBtn, exElemContent], buttons := [] }]⟩

/-- C9: for every `{action: "getSelectedPost"}` message the content layer is
specified to answer `{success: true, content}` when a currently-viewed post
is found — but because `findCurrentPost` is referenced yet never defined in
the repository, the handler's try body throws a `ReferenceError` on every
page state and the catch converts it into
`{success: false, error: "findCurrentPost is not defined"}`: the success
branch is unreachable, even on a page whose viewed post is fully
extractable. -/
theorem c9_getSelectedPost_success_unreachable :
    (∀ page : Dom, (handleGetSelectedPost page).success = false)
    ∧ handleGetSelectedPost exDom9
        = ⟨false, none, some "findCurrentPost is not defined"⟩ := by
  exact ⟨fun _ => rfl, rfl⟩

/-! ### C10: the background script's request construction
(src/background.js:188-245) -/

/-- One entry of the `messages` array. -/
structure ChatMessage where
  role : String
  content : String
deriving DecidableEq

/-- The JSON body of the outbound OpenAI request
(background.js:230-235).  `temperature: 0.7` is kept as tenths to stay in
exact arithmetic. -/
structure ChatRequestBody where
  model : String
  messages : List ChatMessage
  temperatureTenths : Nat
  maxTokens : Nat
deriving DecidableEq

/-- The `generateComment` payload as destructured by `sendOpenAIRequest`
(background.js:188-191): `{postContent, promptType = 'default'}`. -/
structure GeneratePayload where
  postContent : String
  promptType : String
deriving DecidableEq

/-- The hard-coded system prompt of `sendOpenAIRequest`
(background.js:197-211), verbatim. -/
def systemPromptContent : String :=
  "\nPrompt:\nYou are a LinkedIn comment generator that writes in a casual, slightly irreverent style. Use short, punchy sentences. No fancy em dashes - use hyphens or commas. Never too formal, never cliché, taboo-free. Skip buzzwords like transformative, leverage, synergy, innovative, paradigm, next-level. Avoid filler phrases like Certainly, Of course, I’m happy to. Keep under 15 words. Add light wit or value.\n\nExamples of tone & style:\n“Brutal reality check, I’ll pass for now lol”\n“Marketing students in shambles rn.”\n“That’s massive!”\n“Bravo!”\n“My guy’s about to poach all of Mark’s engineers back”\n“$150k MRR = one $150k all-in a month, easy.”\n\nInstruction:\nGiven the LinkedIn post below, write one comment matching the tone above.\n"

/-- The request body constructed by `sendOpenAIRequest`
(background.js:188-236): model `'gpt-4.1-nano'`, the fixed system prompt,
the user message interpolating only `postContent`, `temperature: 0.7`,
`max_tokens: 150`.  The destructured `promptType` is never read past its
binder, and `getSystemPrompt` (background.js:110-175) has no call site. -/
def sendOpenAIRequestBody (payload : GeneratePayload) : ChatRequestBody :=
  { model := "gpt-4.1-nano"
  , messages :=
      [ ⟨"system", systemPromptContent⟩
      , ⟨"user", "\nLinkedIn post:\n" ++ payload.postContent ++ "\n\nYour comment:\n"⟩ ]
  , temperatureTenths := 7
  , maxTokens := 150 }

/-- C10: two `generateComment` payloads that differ only in `promptType`
produce identical outbound OpenAI request bodies — the user-selected tone
has no influence on the request, whose model, system prompt, temperature
and token limit are the same hard-coded values for every payload. -/
theorem c10_promptType_noninterference :
    ∀ (postContent promptType₁ promptType₂ : String),
      sendOpenAIRequestBody ⟨postContent, promptType₁⟩
        = sendOpenAIRequestBody ⟨postContent, promptType₂⟩
      ∧ (sendOpenAIRequestBody ⟨postContent, promptType₁⟩).model = "gpt-4.1-nano"
      ∧ (sendOpenAIRequestBody ⟨postContent, promptType₁⟩).temperatureTenths = 7
      ∧ (sendOpenAIRequestBody ⟨postContent, promptType₁⟩).maxTokens = 150
      ∧ (sendOpenAIRequestBody ⟨postContent, promptType₁⟩).messages.head?.map
          (fun m => m.content) = some systemPromptContent := by
  intro postContent promptType₁ promptType₂
  exact ⟨rfl, rfl, rfl, rfl, rfl⟩

end Commenter
